import Mathlib

/-!
Verification of the HuMo Lipsync Suppress node (`nodes.py`).

The node is a single class `HuMoLipsyncSuppress` whose `apply` method takes a
string-keyed container (`WANVIDIMAGE_EMBEDS` dict) and a boolean, and either
passes the container through unchanged (`enabled = False`) or runs a fixed
five-stage numeric pipeline on the tensor stored at key `"humo_audio_emb"`:
temporal EMA smoothing, per-band gains, optional RMS preservation, residual
blending, optional global gain and optional statistical clamping.

Embedding choices:
* tensors are modelled as a shape (the list reported by `x.shape`) together
  with an exact-rational element at every multi-index; float entries become
  elements of `ℚ`, so all identities claimed "exactly" are stated exactly;
* the two square roots in the source (`_rms` and `x.std()`) have no rational
  realisation in general, so the RMS-preservation stage and the statistical
  clamp are modelled as relations that carry the nonnegative square root as an
  explicit characterised witness (`s ^ 2 = v ∧ 0 ≤ s`); at the fixed preset
  both branches are disabled, so the preset `apply` itself is a function;
* the container is an association list with Python-dict lookup/assignment.
-/

namespace HumoLipsync

/-- Tensor-like value: the shape as reported by `x.shape`, together with the
element at each multi-index.  Exact rationals stand in for the float entries;
indices outside the shape carry irrelevant values, as in the source, where
they simply cannot be accessed. -/
@[ext]
structure Tensor where
  shape : List ℕ
  val : List ℕ → ℚ

/-- Carrier container: the `WANVIDIMAGE_EMBEDS` dict, a mapping from string
keys to tensor-like values, modelled as an association list. -/
abbrev Container := List (String × Tensor)

/-- The fixed key read and written by `apply`. -/
def KEY : String := "humo_audio_emb"

/-- The two `ValueError`s `apply` can raise: the missing-key failure
(`"Missing key 'humo_audio_emb' in WANVIDIMAGE_EMBEDS"`) and the shape failure,
whose message interpolates `tuple(x.shape)`, hence the `observed` payload. -/
inductive ApplyError where
  | missingKey
  | shapeError (observed : List ℕ)

/-- Python `embeds[key]` / `key not in embeds` on the (copied) dict. -/
def dictGet : Container → String → Option Tensor
  | [], _ => none
  | (k', v') :: rest, k => if k = k' then some v' else dictGet rest k

/-- Python `embeds[key] = v` on a dict with unique keys: replace the binding
if the key is present, append it otherwise. -/
def dictSet : Container → String → Tensor → Container
  | [], k, v => [(k, v)]
  | (k', v') :: rest, k, v =>
      if k' = k then (k, v) :: rest else (k', v') :: dictSet rest k v

/-- Preset class attribute `PRESET_GAINS = [4.00, 4.00, 0.50, 0.01, 0.01]`. -/
def PRESET_GAINS : List ℚ := [4, 4, 1/2, 1/100, 1/100]

/-- Preset class attribute `PRESET_EMA_BETA = 0.90`. -/
def PRESET_EMA_BETA : ℚ := 9/10

/-- Preset class attribute `PRESET_PRESERVE_RMS = False`. -/
def PRESET_PRESERVE_RMS : Bool := false

/-- Preset class attribute `PRESET_ALPHA_MIX = 1.00`. -/
def PRESET_ALPHA_MIX : ℚ := 1

/-- Preset class attribute `PRESET_GLOBAL_GAIN = 1.00`. -/
def PRESET_GLOBAL_GAIN : ℚ := 1

/-- Preset class attribute `PRESET_CLAMP_STD = 0.00`. -/
def PRESET_CLAMP_STD : ℚ := 0

/-- EMA state of the smoothing loop: `s = x[0]` initially and
`s = beta * s + one_m * x[t]` at step `t`, where `one_m = 1 - beta`. -/
def emaState (beta : ℚ) (f : ℕ → ℚ) : ℕ → ℚ
  | 0 => f 0
  | t + 1 => beta * emaState beta f t + (1 - beta) * f (t + 1)

/-- Temporal EMA smoothing stage:
`if x.shape[0] > 1 and self.PRESET_EMA_BETA > 0.0:` run the loop and stack the
per-frame states, `else: x_smooth = x`.  Stacking the loop states along `dim=0`
makes frame `t` of the result the state after `t` steps. -/
def smoothStage (beta : ℚ) (x : Tensor) : Tensor :=
  if 1 < x.shape.getD 0 0 ∧ 0 < beta then
    ⟨x.shape, fun idx =>
      emaState beta (fun t => x.val [t, idx.getD 1 0, idx.getD 2 0]) (idx.getD 0 0)⟩
  else x

/-- Per-band gain stage: `x_edit = x_smooth * gains` with
`gains = torch.tensor(self.PRESET_GAINS).view(1, 5, 1)`, i.e. the gain indexed
by the band axis (axis 1) broadcast over frames and channels. -/
def gainStage (gains : List ℚ) (x : Tensor) : Tensor :=
  ⟨x.shape, fun idx => x.val idx * gains.getD (idx.getD 1 0) 0⟩

/-- Residual blend: `x_mixed = (1.0 - alpha) * x_orig + alpha * x_edit`. -/
def blendStage (alpha : ℚ) (xorig xedit : Tensor) : Tensor :=
  ⟨xorig.shape, fun idx => (1 - alpha) * xorig.val idx + alpha * xedit.val idx⟩

/-- Global gain: `if self.PRESET_GLOBAL_GAIN != 1.0: x_mixed = x_mixed * g`;
the multiply is skipped entirely when the gain is exactly 1. -/
def globalStage (g : ℚ) (x : Tensor) : Tensor :=
  if g ≠ 1 then ⟨x.shape, fun idx => x.val idx * g⟩ else x

/-- All in-range multi-indices of a shape, row-major. -/
def allIdx : List ℕ → List (List ℕ)
  | [] => [[]]
  | n :: rest => ((List.range n).map (fun i => (allIdx rest).map (fun idx => i :: idx))).flatten

/-- Number of elements of a tensor, `x.numel()`. -/
def numel (x : Tensor) : ℕ := x.shape.prod

/-- Global scalar mean over all elements, `x.mean()`. -/
def tensorMean (x : Tensor) : ℚ :=
  ((allIdx x.shape).map x.val).sum / (numel x : ℚ)

/-- Square of `x.std()`: torch's default is the Bessel-corrected sample
variance, divisor `N - 1` (`correction=1`), over all elements.  For `N ≤ 1`
torch produces NaN; here the division-by-zero convention of `ℚ` applies, a
regime no claim touches. -/
def besselVar (x : Tensor) : ℚ :=
  ((allIdx x.shape).map (fun idx => (x.val idx - tensorMean x) ^ 2)).sum
    / ((numel x : ℚ) - 1)

/-- Population variance, divisor `N`, over all elements.  This follows the
spec's words "population statistics over the entire array, all axes combined";
it is the refinement comparison point for `besselVar`, which is what the
source's `x.std()` actually squares to. -/
def popVarSpec (x : Tensor) : ℚ :=
  ((allIdx x.shape).map (fun idx => (x.val idx - tensorMean x) ^ 2)).sum
    / (numel x : ℚ)

/-- Clamp output, given the value `std` of the unfloored `x.std()`:
`std.clamp_min(1e-6)`, `lo = mean - c * std`, `hi = mean + c * std`,
`x.clamp(lo, hi)` elementwise. -/
def clampOut (c : ℚ) (x : Tensor) (std : ℚ) : Tensor :=
  ⟨x.shape, fun idx =>
    min (max (x.val idx) (tensorMean x - c * max std (1/1000000)))
        (tensorMean x + c * max std (1/1000000))⟩

/-- Statistical clamp stage, `if self.PRESET_CLAMP_STD > 0.0: ...`, as a
relation: when active, some nonnegative `std` squaring to the sample variance
(the value of `x.std()`) produces the clamped output; otherwise the stage is
skipped. -/
def ClampStageRel (c : ℚ) (x y : Tensor) : Prop :=
  if 0 < c then ∃ std, 0 ≤ std ∧ std ^ 2 = besselVar x ∧ y = clampOut c x std
  else y = x

/-- Per-frame per-band mean square over the channel axis,
`x.pow(2).mean(dim=-1, keepdim=True)` at frame `t`, band `b`. -/
def meanSqChan (x : Tensor) (t b : ℕ) : ℚ :=
  ((List.range (x.shape.getD 2 0)).map (fun c => x.val [t, b, c] ^ 2)).sum
    / (x.shape.getD 2 0 : ℚ)

/-- Characterisation of `_rms` at frame `t`, band `b`: the square root of the
channel mean square, floored at `eps = 1e-6` (`.sqrt().clamp_min(eps)`). -/
def IsRms (x : Tensor) (t b : ℕ) (r : ℚ) : Prop :=
  ∃ s, 0 ≤ s ∧ s ^ 2 = meanSqChan x t b ∧ r = max s (1/1000000)

/-- RMS-preservation stage, `if self.PRESET_PRESERVE_RMS: ...`, as a relation:
when enabled, `x_edit = x_edit * (rms_orig / rms_edit)` with the per-frame
per-band RMS values broadcast over the channel axis; the stage is skipped
entirely when disabled. -/
def RmsStageRel (preserve : Bool) (xorig g out : Tensor) : Prop :=
  if preserve then
    ∃ ro re : ℕ → ℕ → ℚ,
      (∀ t b, t < xorig.shape.getD 0 0 → b < xorig.shape.getD 1 0 →
        IsRms xorig t b (ro t b)) ∧
      (∀ t b, t < g.shape.getD 0 0 → b < g.shape.getD 1 0 →
        IsRms g t b (re t b)) ∧
      out = ⟨g.shape, fun idx =>
        g.val idx * (ro (idx.getD 0 0) (idx.getD 1 0) / re (idx.getD 0 0) (idx.getD 1 0))⟩
  else out = g

/-- Preset record: the compiled-in configuration the spec documents, with one
field per `PRESET_*` class attribute. -/
structure Config where
  gains : List ℚ
  ema_beta : ℚ
  preserve_rms : Bool
  alpha_mix : ℚ
  global_gain : ℚ
  clamp_std : ℚ

/-- The numeric pipeline of `apply` for an arbitrary configuration, as a
relation (the RMS and clamp stages involve square roots): smoothing, gains and
the always-executed blend against the untouched original are the functional
stages; `xEdit` and the final result are related through the two optional
stages. -/
def PipelineRel (cfg : Config) (x y : Tensor) : Prop :=
  ∃ xEdit xMixed,
    RmsStageRel cfg.preserve_rms x
      (gainStage cfg.gains (smoothStage cfg.ema_beta x)) xEdit ∧
    xMixed = globalStage cfg.global_gain (blendStage cfg.alpha_mix x xEdit) ∧
    ClampStageRel cfg.clamp_std xMixed y

/-- The preset configuration of the class. -/
def presetConfig : Config :=
  ⟨PRESET_GAINS, PRESET_EMA_BETA, PRESET_PRESERVE_RMS, PRESET_ALPHA_MIX,
   PRESET_GLOBAL_GAIN, PRESET_CLAMP_STD⟩

/-- The numeric pipeline at the fixed preset, where it is a function: the
`if self.PRESET_PRESERVE_RMS:` and `if self.PRESET_CLAMP_STD > 0.0:` branches
are not taken (their conditions are constantly false at the preset), and the
remaining lines compose as written in the source.
`applyNumeric_pipelineRel` below ties this to the parametric relation. -/
def applyNumeric (x : Tensor) : Tensor :=
  globalStage PRESET_GLOBAL_GAIN
    (blendStage PRESET_ALPHA_MIX x
      (gainStage PRESET_GAINS (smoothStage PRESET_EMA_BETA x)))

/-- The `apply` method.  `if not enabled: return (image_embeds,)`; otherwise
copy the dict, fail if the key is absent, fail if the value is not rank 3 with
band axis 5 (reporting the observed shape), else run the numeric pipeline and
bind the result at the same key in the copy.  The returned 1-tuple is dropped;
the dict copy is implicit in the pure model (`dictSet` builds the new list). -/
def apply (image_embeds : Container) (enabled : Bool) : Except ApplyError Container :=
  if !enabled then .ok image_embeds
  else
    match dictGet image_embeds KEY with
    | none => .error .missingKey
    | some x =>
      if x.shape.length ≠ 3 ∨ x.shape.getD 1 0 ≠ 5 then .error (.shapeError x.shape)
      else .ok (dictSet image_embeds KEY (applyNumeric x))

/-- Concrete rank-3 tensor built from nested lists, shape inferred as torch
would report it for a rectangular array. -/
def t3 (data : List (List (List ℚ))) : Tensor :=
  ⟨[data.length, (data.getD 0 []).length, ((data.getD 0 []).getD 0 []).length],
   fun idx => ((data.getD (idx.getD 0 0) []).getD (idx.getD 1 0) []).getD (idx.getD 2 0) 0⟩

example : (smoothStage PRESET_EMA_BETA (t3 [[[1]], [[2]]])).val [1, 0, 0] = 11/10 := by
  norm_num [smoothStage, t3, emaState, PRESET_EMA_BETA]

example : tensorMean (t3 [[[3],[3],[-3],[-3],[0]], [[0],[0],[0],[0],[0]]]) = 0 := by
  norm_num [tensorMean, t3, allIdx, numel, List.range_succ]

example : besselVar (t3 [[[3],[3],[-3],[-3],[0]], [[0],[0],[0],[0],[0]]]) = 4 := by
  norm_num [besselVar, tensorMean, t3, allIdx, numel, List.range_succ]

example : apply [] false = .ok [] := rfl

/-- The preset function `applyNumeric` realises the parametric pipeline
relation at the preset configuration: the two disabled optional stages are the
relation's identity branches there. -/
theorem applyNumeric_pipelineRel (x : Tensor) :
    PipelineRel presetConfig x (applyNumeric x) := by
  refine ⟨gainStage PRESET_GAINS (smoothStage PRESET_EMA_BETA x), applyNumeric x,
    ?_, rfl, ?_⟩
  · simp [RmsStageRel, presetConfig, PRESET_PRESERVE_RMS]
  · simp [ClampStageRel, presetConfig, PRESET_CLAMP_STD]

/-- The smoother never changes the reported shape. -/
theorem smoothStage_shape (beta : ℚ) (x : Tensor) :
    (smoothStage beta x).shape = x.shape := by
  unfold smoothStage
  split <;> rfl

/-- Looking up the assigned key after a dict assignment yields the assigned
value. -/
theorem dictGet_dictSet_self (c : Container) (k : String) (v : Tensor) :
    dictGet (dictSet c k v) k = some v := by
  induction c with
  | nil => simp [dictSet, dictGet]
  | cons kv rest ih =>
      obtain ⟨k', v'⟩ := kv
      by_cases h : k' = k
      · subst h
        simp [dictSet, dictGet]
      · simp [dictSet, dictGet, h, Ne.symm h, ih]

/-- Looking up any other key after a dict assignment is unchanged. -/
theorem dictGet_dictSet_ne (c : Container) (k k2 : String) (v : Tensor)
    (h : k2 ≠ k) : dictGet (dictSet c k v) k2 = dictGet c k2 := by
  induction c with
  | nil => simp [dictSet, dictGet, h]
  | cons kv rest ih =>
      obtain ⟨k', v'⟩ := kv
      by_cases hk : k' = k
      · subst hk
        simp [dictSet, dictGet, h]
      · simp [dictSet, dictGet, hk, ih]

/-- C1: on an input of shape `[T, B, C]` with `T > 1` and `ema_beta > 0`, the
Temporal Smoother stage of `apply` keeps the shape, leaves frame 0 untouched
and satisfies the recurrence `s_t = beta * s_{t-1} + (1 - beta) * x_t` for
`t = 1 .. T-1`; when `T = 1` or `ema_beta ≤ 0` the stage is the identity; and
for every `T ≥ 1` the output at frame 0 equals the input at frame 0 exactly. -/
theorem smoother_spec (beta : ℚ) (x : Tensor) (T B C : ℕ)
    (hsh : x.shape = [T, B, C]) :
    (1 < T → 0 < beta →
      (smoothStage beta x).shape = x.shape ∧
      (∀ b c, (smoothStage beta x).val [0, b, c] = x.val [0, b, c]) ∧
      (∀ t b c, t + 1 < T →
        (smoothStage beta x).val [t + 1, b, c]
          = beta * (smoothStage beta x).val [t, b, c]
            + (1 - beta) * x.val [t + 1, b, c])) ∧
    ((T = 1 ∨ beta ≤ 0) → smoothStage beta x = x) ∧
    (1 ≤ T → ∀ b c, (smoothStage beta x).val [0, b, c] = x.val [0, b, c]) := by
  have h0 : x.shape.getD 0 0 = T := by rw [hsh]; rfl
  refine ⟨fun hT hb => ?_, fun him => ?_, fun _ b c => ?_⟩
  · have hcond : 1 < x.shape.getD 0 0 ∧ 0 < beta := ⟨by rw [h0]; exact hT, hb⟩
    unfold smoothStage
    rw [if_pos hcond]
    exact ⟨rfl, fun b c => rfl, fun t b c _ => rfl⟩
  · have hcond : ¬(1 < x.shape.getD 0 0 ∧ 0 < beta) := by
      rw [h0]
      rintro ⟨hgt, hpos⟩
      rcases him with h1 | h2
      · rw [h1] at hgt
        exact absurd hgt (by norm_num)
      · exact absurd hpos (not_lt.mpr h2)
    unfold smoothStage
    rw [if_neg hcond]
  · unfold smoothStage
    split
    · rfl
    · rfl

def tC1 : Tensor := t3 [[[1]], [[2]]]

theorem smoother_spec_witness :
    (smoothStage (1/2) tC1).val [1, 0, 0]
      = (1/2) * (smoothStage (1/2) tC1).val [0, 0, 0] + (1 - 1/2) * tC1.val [1, 0, 0] := by
  have h := smoother_spec (1/2) tC1 2 1 1 rfl
  exact (h.1 (by norm_num) (by norm_num)).2.2 0 0 0 (by norm_num)

/-- C2: with `enabled = false`, `apply` returns the input container unchanged
for every container — including one where the key is absent or maps to a value
of any shape — with no validation and no error. -/
theorem disabled_passthrough (c : Container) : apply c false = .ok c := rfl

/-- C3: with `enabled = true` and the key present but bound to a value of rank
other than 3, or of rank 3 with band axis (axis 1) other than 5, `apply` fails
with the shape error, whose payload is the actual observed shape. -/
theorem shape_rejection (c : Container) (x : Tensor)
    (hk : dictGet c KEY = some x)
    (hbad : x.shape.length ≠ 3 ∨ (x.shape.length = 3 ∧ x.shape.getD 1 0 ≠ 5)) :
    apply c true = .error (.shapeError x.shape) := by
  have hcond : x.shape.length ≠ 3 ∨ x.shape.getD 1 0 ≠ 5 := by
    rcases hbad with h | ⟨_, h⟩
    · exact Or.inl h
    · exact Or.inr h
  simp only [apply, Bool.not_true, Bool.false_eq_true, if_false, hk]
  rw [if_pos hcond]

def tBad : Tensor := ⟨[3, 4], fun _ => 0⟩

theorem shape_rejection_witness :
    apply [(KEY, tBad)] true = .error (.shapeError [3, 4]) :=
  shape_rejection [(KEY, tBad)] tBad rfl (Or.inl (by norm_num [tBad]))

/-- C4: with `enabled = true` and the expected key absent from the container,
`apply` fails with the missing-key error; no default value is substituted. -/
theorem missing_key_rejection (c : Container) (hk : dictGet c KEY = none) :
    apply c true = .error .missingKey := by
  simp only [apply, Bool.not_true, Bool.false_eq_true, if_false, hk]

theorem missing_key_rejection_witness :
    apply [] true = .error .missingKey :=
  missing_key_rejection [] rfl

/-- C5: on a well-formed container, `apply` with `enabled = true` returns the
shallow copy in which only the value at the key is replaced by the pipeline
output; the key now yields the new value, and every other key still yields the
identical original value.  The caller's container and array are untouched:
`dictSet` builds the copy, and the model is pure, mirroring
`embeds = dict(image_embeds)` mutating only the copy. -/
theorem copy_on_write (c : Container) (x : Tensor)
    (hk : dictGet c KEY = some x)
    (h3 : x.shape.length = 3) (h5 : x.shape.getD 1 0 = 5) :
    apply c true = .ok (dictSet c KEY (applyNumeric x)) ∧
    dictGet (dictSet c KEY (applyNumeric x)) KEY = some (applyNumeric x) ∧
    ∀ k, k ≠ KEY → dictGet (dictSet c KEY (applyNumeric x)) k = dictGet c k := by
  refine ⟨?_, dictGet_dictSet_self c KEY (applyNumeric x),
    fun k hkne => dictGet_dictSet_ne c KEY k (applyNumeric x) hkne⟩
  simp only [apply, Bool.not_true, Bool.false_eq_true, if_false, hk]
  rw [if_neg]
  rw [h3, h5]
  norm_num

def tW5 : Tensor := ⟨[1, 5, 2], fun _ => 3⟩

def cW5 : Container := [(KEY, tW5), ("other", ⟨[7], fun _ => 9⟩)]

theorem copy_on_write_witness :
    apply cW5 true = .ok (dictSet cW5 KEY (applyNumeric tW5)) ∧
    dictGet (dictSet cW5 KEY (applyNumeric tW5)) KEY = some (applyNumeric tW5) ∧
    ∀ k, k ≠ KEY → dictGet (dictSet cW5 KEY (applyNumeric tW5)) k = dictGet cW5 k :=
  copy_on_write cW5 tW5 rfl (by norm_num [tW5]) (by norm_num [tW5])

def xC6 : Tensor :=
  t3 [List.replicate 5 (List.replicate 4 1), List.replicate 5 (List.replicate 4 2)]

def cC6 : Container := [(KEY, xC6)]

/-- C6: end-to-end example at the preset.  On the `[2, 5, 4]` input with frame
0 all ones and frame 1 all twos, `apply` with `enabled = true` runs the
pipeline; the smoothed frame 1 is `0.9 * 1 + 0.1 * 2 = 1.10` in every band and
channel before gain, the final output at frame 1 band 0 is `1.10 * 4 = 4.40`
exactly, and the final frame 0 is the original frame 0 multiplied per band by
the preset gain vector exactly. -/
theorem preset_example :
    apply cC6 true = .ok [(KEY, applyNumeric xC6)] ∧
    ((List.range 5).map fun b => (List.range 4).map fun c =>
        (smoothStage PRESET_EMA_BETA xC6).val [1, b, c])
      = List.replicate 5 (List.replicate 4 (11/10)) ∧
    ((List.range 4).map fun c => (applyNumeric xC6).val [1, 0, c])
      = List.replicate 4 (22/5) ∧
    ((List.range 5).map fun b => (List.range 4).map fun c => (applyNumeric xC6).val [0, b, c])
      = ((List.range 5).map fun b => (List.range 4).map fun c =>
          xC6.val [0, b, c] * PRESET_GAINS.getD b 0) := by
  refine ⟨rfl, ?_, ?_, ?_⟩ <;>
    norm_num [applyNumeric, globalStage, blendStage, gainStage, smoothStage, emaState,
      xC6, t3, PRESET_EMA_BETA, PRESET_GAINS, PRESET_ALPHA_MIX, PRESET_GLOBAL_GAIN,
      List.range_succ, List.replicate]

/-- C8: with `alpha_mix = 1.0` the blend step returns the edited branch — the
gained array, routed through the RMS-preservation stage when that is enabled —
exactly; the original array contributes nothing. -/
theorem full_mix_blend (cfg : Config) (x xEdit : Tensor)
    (hmix : cfg.alpha_mix = 1)
    (h : RmsStageRel cfg.preserve_rms x
          (gainStage cfg.gains (smoothStage cfg.ema_beta x)) xEdit) :
    blendStage cfg.alpha_mix x xEdit = xEdit := by
  have hg : (gainStage cfg.gains (smoothStage cfg.ema_beta x)).shape = x.shape := by
    simp [gainStage, smoothStage_shape]
  have hsh : xEdit.shape = x.shape := by
    cases hp : cfg.preserve_rms
    · rw [hp] at h
      simp only [RmsStageRel, Bool.false_eq_true, if_false] at h
      rw [h]
      exact hg
    · rw [hp] at h
      simp only [RmsStageRel, if_true] at h
      obtain ⟨ro, re, _, _, hout⟩ := h
      rw [hout]
      exact hg
  rw [hmix]
  refine Tensor.ext hsh.symm ?_
  funext idx
  simp [blendStage]

def cfgW8 : Config := ⟨PRESET_GAINS, 9/10, false, 1, 1, 0⟩

theorem full_mix_blend_witness :
    blendStage cfgW8.alpha_mix tC1 (gainStage cfgW8.gains (smoothStage cfgW8.ema_beta tC1))
      = gainStage cfgW8.gains (smoothStage cfgW8.ema_beta tC1) :=
  full_mix_blend cfgW8 tC1 _ rfl (by simp [RmsStageRel, cfgW8])

/-- C9: with `alpha_mix = 0.0`, global gain 1.0 and the clamp disabled, the
pipeline output equals the untouched original input exactly, whatever the
gains, the smoothing factor and the RMS-preservation setting. -/
theorem zero_mix_identity (cfg : Config) (x y : Tensor)
    (ha : cfg.alpha_mix = 0) (hg : cfg.global_gain = 1) (hc : cfg.clamp_std = 0)
    (h : PipelineRel cfg x y) : y = x := by
  obtain ⟨xEdit, xMixed, _hrms, hmixed, hclamp⟩ := h
  rw [hc] at hclamp
  simp only [ClampStageRel, lt_self_iff_false, if_false] at hclamp
  rw [hclamp, hmixed, ha, hg]
  have hgs : globalStage 1 (blendStage 0 x xEdit) = blendStage 0 x xEdit := by
    simp [globalStage]
  rw [hgs]
  refine Tensor.ext rfl ?_
  funext idx
  simp [blendStage]

def cfgW9 : Config := ⟨[2, 3, 4, 5, 6], 1/2, false, 0, 1, 0⟩

def yW9 : Tensor :=
  globalStage cfgW9.global_gain
    (blendStage cfgW9.alpha_mix tC1
      (gainStage cfgW9.gains (smoothStage cfgW9.ema_beta tC1)))

theorem zero_mix_identity_witness : yW9 = tC1 :=
  zero_mix_identity cfgW9 tC1 yW9 rfl rfl rfl
    ⟨gainStage cfgW9.gains (smoothStage cfgW9.ema_beta tC1), yW9,
     by simp [RmsStageRel, cfgW9], rfl, by simp [ClampStageRel, cfgW9]⟩

/-- C10: a rank-3 value of shape `[0, 5, C]` — zero time frames — passes
validation, which checks only the rank and the band axis, so `apply` with
`enabled = true` raises no error and binds at the key an output of the same
empty shape `[0, 5, C]`; the data model's lower bound `T ≥ 1` is not
enforced. -/
theorem zero_frames_ok (c : Container) (x : Tensor) (C : ℕ)
    (hk : dictGet c KEY = some x) (hsh : x.shape = [0, 5, C]) :
    apply c true = .ok (dictSet c KEY (applyNumeric x)) ∧
    (applyNumeric x).shape = [0, 5, C] ∧
    dictGet (dictSet c KEY (applyNumeric x)) KEY = some (applyNumeric x) := by
  refine ⟨?_, ?_, dictGet_dictSet_self c KEY (applyNumeric x)⟩
  · simp only [apply, Bool.not_true, Bool.false_eq_true, if_false, hk]
    rw [if_neg]
    rw [hsh]
    norm_num
  · have hshape : (applyNumeric x).shape = x.shape := by
      simp [applyNumeric, globalStage, blendStage, PRESET_GLOBAL_GAIN]
    rw [hshape, hsh]

def tZ : Tensor := ⟨[0, 5, 3], fun _ => 0⟩

theorem zero_frames_ok_witness :
    apply [(KEY, tZ)] true = .ok (dictSet [(KEY, tZ)] KEY (applyNumeric tZ)) ∧
    (applyNumeric tZ).shape = [0, 5, 3] ∧
    dictGet (dictSet [(KEY, tZ)] KEY (applyNumeric tZ)) KEY = some (applyNumeric tZ) :=
  zero_frames_ok [(KEY, tZ)] tZ 3 rfl rfl

def xC7 : Tensor := t3 [[[3], [3], [-3], [-3], [0]], [[0], [0], [0], [0], [0]]]

def cfgC7 : Config := ⟨[1, 1, 1, 1, 1], 0, false, 1, 1, 1⟩

/-- The pre-clamp array of the pipeline at `cfgC7` on `xC7` (smoothing off,
unit gains, full mix, unit global gain): elementwise equal to `xC7`. -/
def preC7 : Tensor :=
  globalStage cfgC7.global_gain
    (blendStage cfgC7.alpha_mix xC7
      (gainStage cfgC7.gains (smoothStage cfgC7.ema_beta xC7)))

/-- The pipeline output at `cfgC7` on `xC7`: `x.std()` is the Bessel-corrected
sample standard deviation `sqrt(36 / 9) = 2`, so the code clamps into
`[-2, 2]`. -/
def yC7 : Tensor := clampOut cfgC7.clamp_std preC7 2

/-- C7, counterexample: the code's clamp uses `x_mixed.std()`, whose torch
default is the Bessel-corrected sample statistic (divisor `N - 1`), not the
population statistic (divisor `N`) the claim names.  On the 10-element
pre-clamp array with squared deviations summing to 36 the sample std is
`sqrt(36/9) = 2` while the population std is `sqrt(36/10) < 2`; the element
clamped from 3 to 2 lies strictly outside the claimed population interval
`[mean - clamp_std * max(std_pop, 1e-6), mean + clamp_std * max(std_pop, 1e-6)]`. -/
theorem clamp_population_cex :
    PipelineRel cfgC7 xC7 yC7 ∧
    (yC7.val [0, 0, 0] - tensorMean preC7) ^ 2
      > cfgC7.clamp_std ^ 2 * popVarSpec preC7 ∧
    ∀ s : ℚ, 0 ≤ s → s ^ 2 = popVarSpec preC7 →
      tensorMean preC7 + cfgC7.clamp_std * max s (1/1000000) < yC7.val [0, 0, 0] := by
  have hmean : tensorMean preC7 = 0 := by
    norm_num [tensorMean, preC7, cfgC7, globalStage, blendStage, gainStage, smoothStage,
      emaState, xC7, t3, allIdx, numel, List.range_succ]
  have hvar : besselVar preC7 = 4 := by
    norm_num [besselVar, tensorMean, preC7, cfgC7, globalStage, blendStage, gainStage,
      smoothStage, emaState, xC7, t3, allIdx, numel, List.range_succ]
  have hpop : popVarSpec preC7 = 18/5 := by
    norm_num [popVarSpec, tensorMean, preC7, cfgC7, globalStage, blendStage, gainStage,
      smoothStage, emaState, xC7, t3, allIdx, numel, List.range_succ]
  have hy : yC7.val [0, 0, 0] = 2 := by
    norm_num [yC7, clampOut, tensorMean, preC7, cfgC7, globalStage, blendStage, gainStage,
      smoothStage, emaState, xC7, t3, allIdx, numel, List.range_succ, max_def, min_def]
  refine ⟨⟨gainStage cfgC7.gains (smoothStage cfgC7.ema_beta xC7), preC7,
      by simp [RmsStageRel, cfgC7], rfl, ?_⟩, ?_, ?_⟩
  · unfold ClampStageRel
    rw [if_pos (by norm_num [cfgC7] : (0:ℚ) < cfgC7.clamp_std)]
    exact ⟨2, by norm_num, by rw [hvar]; norm_num, rfl⟩
  · rw [hy, hmean, hpop]
    norm_num [cfgC7]
  · intro s hs hsq
    rw [hpop] at hsq
    rw [hy, hmean]
    have hcs : cfgC7.clamp_std = 1 := rfl
    rw [hcs]
    have hslt : s < 2 := by nlinarith
    have hm : max s (1/1000000) < 2 := max_lt hslt (by norm_num)
    linarith

/-- C7, amended: when `clamp_std > 0` the Post Stage computes the global mean
and the global standard deviation of the pre-clamp array with torch's default
Bessel correction (divisor `N - 1`, a sample statistic rather than the
population statistic), floors the std at 1e-6, and clamps every element into
`[mean - clamp_std * std, mean + clamp_std * std]`; consequently every element
of the stage's output — the pipeline's final result — lies in that interval
computed over the pre-clamp array. -/
theorem clamp_bessel_bounds (c : ℚ) (pre y : Tensor) (hc : 0 < c)
    (h : ClampStageRel c pre y) :
    ∃ std, 0 ≤ std ∧ std ^ 2 = besselVar pre ∧ ∀ idx : List ℕ,
      tensorMean pre - c * max std (1/1000000) ≤ y.val idx ∧
      y.val idx ≤ tensorMean pre + c * max std (1/1000000) := by
  unfold ClampStageRel at h
  rw [if_pos hc] at h
  obtain ⟨std, h0, hsq, hy⟩ := h
  refine ⟨std, h0, hsq, fun idx => ?_⟩
  subst hy
  simp only [clampOut]
  have hpos : (0:ℚ) < max std (1/1000000) := lt_max_of_lt_right (by norm_num)
  have hlohi : tensorMean pre - c * max std (1/1000000)
      ≤ tensorMean pre + c * max std (1/1000000) := by nlinarith
  exact ⟨le_min (le_max_right _ _) hlohi, min_le_right _ _⟩

theorem clamp_bessel_bounds_witness :
    ∃ std, 0 ≤ std ∧ std ^ 2 = besselVar xC7 ∧ ∀ idx : List ℕ,
      tensorMean xC7 - 1 * max std (1/1000000) ≤ (clampOut 1 xC7 2).val idx ∧
      (clampOut 1 xC7 2).val idx ≤ tensorMean xC7 + 1 * max std (1/1000000) :=
  clamp_bessel_bounds 1 xC7 (clampOut 1 xC7 2) (by norm_num)
    (by unfold ClampStageRel
        rw [if_pos (by norm_num : (0:ℚ) < 1)]
        exact ⟨2, by norm_num,
          by norm_num [besselVar, tensorMean, xC7, t3, allIdx, numel, List.range_succ],
          rfl⟩)

end HumoLipsync
